import Mathlib

/-!
Shallow embedding of `src/vector.h` (namespace `nexus`), a generic dynamic
array over raw pointers `first`, `last`, `end_ptr`.  A state is modelled by
the list of live elements (`data`, the values in `[first, last)`), the
capacity (`cap`, the value of `end_ptr - first`) and whether a heap
allocation is currently held (`alloc`, true iff `first` is not `nullptr`;
note that `new T[0]` yields a non-null pointer that must later be freed).
Element access `at`, and `pop_back`, terminate the process on a violated
check; they are embedded as `Option`-returning functions where `none`
marks the fatal path.  The element type's own `==` and `<` are passed in
as explicit boolean functions `eq` and `lt`.
-/

namespace nexus

/-- State of a `nexus::vector<T>`: live elements, capacity, and whether a
heap buffer is held (`first != nullptr`). -/
structure vector (T : Type) where
  data : List T
  cap : Nat
  alloc : Bool
  deriving Repr, DecidableEq

namespace vector

variable {T : Type}

/-- Default constructor `vector()`: all three pointers null. -/
def mkDefault : vector T := ⟨[], 0, false⟩

/-- Constructor `vector(count, value)`: `first = new T[count]` (an
allocation is held even for `count = 0`), all `count` slots assigned
`value`, `last = end_ptr = first + count`. -/
def mkCount (count : Nat) (value : T) : vector T :=
  ⟨List.replicate count value, count, true⟩

/-- `size()`: `last - first`. -/
def size (v : vector T) : Nat := v.data.length

/-- `capacity()`: `end_ptr - first`. -/
def capacity (v : vector T) : Nat := v.cap

/-- `empty()`: `size() == 0`. -/
def empty (v : vector T) : Bool := v.size == 0

/-- Copy constructor: `first = new T[other.capacity()]` (always a fresh
allocation), `last = first + other.size()`, copies the live elements. -/
def copyCtor (other : vector T) : vector T :=
  ⟨other.data, other.cap, true⟩

/-- Move constructor: the destination takes `first`, `last`, `end_ptr`
verbatim; the source's pointers are set to null.  Returns
(destination, source after the move). -/
def moveCtor (other : vector T) : vector T × vector T :=
  (⟨other.data, other.cap, other.alloc⟩, ⟨[], 0, false⟩)

/-- `at(index)`: if `index >= size()` the process is terminated after
printing the index (embedded as `none`); otherwise returns `first[index]`. -/
def atIdx (v : vector T) (index : Nat) : Option T :=
  if index ≥ v.size then none
  else v.data[index]?

/-- `reallocate(new_cap)`: `new_data = new T[new_cap]` (so a buffer is
held afterwards), the `old_size` live elements are moved over in order,
`last = first + old_size`, `end_ptr = first + new_cap`.  Callers ensure
`old_size <= new_cap`. -/
def reallocate (v : vector T) (new_cap : Nat) : vector T :=
  ⟨v.data, new_cap, true⟩

/-- `grow()`: `new_cap = old_cap == 0 ? 1 : old_cap * 2`, then
`reallocate(new_cap)`. -/
def grow (v : vector T) : vector T :=
  v.reallocate (if v.capacity = 0 then 1 else v.capacity * 2)

/-- `push_back(value)`: grow when `last == end_ptr` (i.e. size equals
capacity), then `*last++ = value`. -/
def push_back (v : vector T) (value : T) : vector T :=
  let v1 := if v.size = v.capacity then v.grow else v
  { v1 with data := v1.data ++ [value] }

/-- `pop_back()`: terminates the process when empty (embedded as `none`);
otherwise `--last; last->~T()`, so the last live element disappears and
capacity is untouched. -/
def pop_back (v : vector T) : Option (vector T) :=
  if v.empty then none
  else some { v with data := v.data.dropLast }

/-- `clear()`: destroys live elements until `last == first`; capacity and
the buffer itself are untouched. -/
def clear (v : vector T) : vector T := { v with data := [] }

/-- `reserve(new_cap)`: reallocate only when `new_cap > capacity()`. -/
def reserve (v : vector T) (new_cap : Nat) : vector T :=
  if new_cap > v.capacity then v.reallocate new_cap else v

/-- `shrink_to_fit()`: reallocate down to `size()` when
`capacity() > size()`. -/
def shrink_to_fit (v : vector T) : vector T :=
  if v.capacity > v.size then v.reallocate v.size else v

/-- The `while (size() > new_size) pop_back();` loop of `resize`; each
iteration hits the non-empty branch of `pop_back`. -/
def popLoop (v : vector T) (new_size : Nat) : vector T :=
  if h : v.size > new_size then
    popLoop { v with data := v.data.dropLast } new_size
  else v
termination_by v.size
decreasing_by
  simp [size] at h ⊢
  omega

/-- The `while (size() < new_size) push_back(value);` loop of `resize`. -/
def pushLoop (v : vector T) (new_size : Nat) (value : T) : vector T :=
  if h : v.size < new_size then
    pushLoop (v.push_back value) new_size value
  else v
termination_by new_size - v.size
decreasing_by
  simp only [push_back]
  split <;> (simp [size, grow, reallocate] at h ⊢; omega)

/-- `resize(new_size, value)`: pop down when `new_size < size()`, or
`reserve(new_size)` then push copies of `value` when `new_size > size()`;
otherwise nothing happens. -/
def resize (v : vector T) (new_size : Nat) (value : T) : vector T :=
  if new_size < v.size then v.popLoop new_size
  else if new_size > v.size then (v.reserve new_size).pushLoop new_size value
  else v

/-- `operator==`: false when sizes differ, otherwise element-wise `==`
over the first `size()` positions (the zip has exactly that length when
the sizes agree). -/
def vecEq (eq : T → T → Bool) (lhs rhs : vector T) : Bool :=
  if lhs.size ≠ rhs.size then false
  else (lhs.data.zip rhs.data).all fun p => eq p.1 p.2

/-- `operator!=`: `!(lhs == rhs)`. -/
def vecNe (eq : T → T → Bool) (lhs rhs : vector T) : Bool :=
  !(vecEq eq lhs rhs)

/-- `std::lexicographical_compare(f1, l1, f2, l2)` on the element type's
`<`: walk both ranges; `*f1 < *f2` settles true, `*f2 < *f1` settles
false; after the walk, true iff range 1 is exhausted and range 2 is not. -/
def lexicographical_compare (lt : T → T → Bool) : List T → List T → Bool
  | _, [] => false
  | [], _ :: _ => true
  | a :: as, b :: bs =>
    if lt a b then true
    else if lt b a then false
    else lexicographical_compare lt as bs

/-- `operator<`: `std::lexicographical_compare` over the two element
ranges. -/
def vecLt (lt : T → T → Bool) (lhs rhs : vector T) : Bool :=
  lexicographical_compare lt lhs.data rhs.data

/-- `operator<=`: `!(rhs < lhs)`. -/
def vecLe (lt : T → T → Bool) (lhs rhs : vector T) : Bool :=
  !(vecLt lt rhs lhs)

/-- `operator>`: `rhs < lhs`. -/
def vecGt (lt : T → T → Bool) (lhs rhs : vector T) : Bool :=
  vecLt lt rhs lhs

/-- `operator>=`: `!(lhs < rhs)`. -/
def vecGe (lt : T → T → Bool) (lhs rhs : vector T) : Bool :=
  !(vecLt lt lhs rhs)

/-- A sequence of `push_back` calls, one per list element, in order. -/
def pushList (v : vector T) : List T → vector T
  | [] => v
  | x :: xs => (v.push_back x).pushList xs

end vector

/-- Capacity predicted by the doubling rule after `k` appends starting
from capacity 0: an append that finds length equal to capacity raises the
capacity to `max 1 (2 * capacity)`. -/
def capAfter : Nat → Nat
  | 0 => 0
  | k + 1 => if capAfter k = k then max 1 (capAfter k * 2) else capAfter k

/-- Lexicographic strict order on element sequences, written from the
specification: an empty sequence precedes any non-empty one; otherwise the
heads decide unless neither is below the other, in which case the tails
are compared. -/
inductive SpecLex (lt : T → T → Prop) : List T → List T → Prop
  | nil (b : T) (bs : List T) : SpecLex lt [] (b :: bs)
  | head {a b : T} {as bs : List T} : lt a b → SpecLex lt (a :: as) (b :: bs)
  | tail {a b : T} {as bs : List T} :
      ¬ lt a b → ¬ lt b a → SpecLex lt as bs → SpecLex lt (a :: as) (b :: bs)

variable {T : Type}

theorem vector.push_back_data (v : vector T) (x : T) :
    (v.push_back x).data = v.data ++ [x] := by
  simp only [vector.push_back]
  split <;> rfl

theorem vector.push_back_size (v : vector T) (x : T) :
    (v.push_back x).size = v.size + 1 := by
  simp [vector.size, vector.push_back_data]

theorem vector.push_back_cap (v : vector T) (x : T) :
    (v.push_back x).cap =
      if v.size = v.cap then (if v.cap = 0 then 1 else v.cap * 2) else v.cap := by
  simp only [vector.push_back, vector.grow, vector.reallocate, vector.capacity]
  split <;> rfl

theorem capAfter_ge (k : Nat) : k ≤ capAfter k := by
  induction k with
  | zero => simp [capAfter]
  | succ k ih =>
    rw [capAfter]
    split <;> omega

theorem capAfter_pow (k : Nat) : capAfter k = 0 ∨ ∃ j, capAfter k = 2 ^ j := by
  induction k with
  | zero => left; rfl
  | succ k ih =>
    rw [capAfter]
    split
    · rcases ih with h0 | ⟨j, hj⟩
      · right; exact ⟨0, by omega⟩
      · right
        refine ⟨j + 1, ?_⟩
        have h1 : (1 : Nat) ≤ 2 ^ j := Nat.one_le_two_pow
        rw [hj, pow_succ]
        omega
    · exact ih

theorem vector.pushList_spec (xs : List T) :
    ∀ v : vector T, v.cap = capAfter v.size →
      (v.pushList xs).data = v.data ++ xs ∧
      (v.pushList xs).cap = capAfter (v.size + xs.length) := by
  induction xs with
  | nil => intro v hv; simpa [vector.pushList] using hv
  | cons x xs ih =>
    intro v hv
    have hge : v.size ≤ capAfter v.size := by
      have := capAfter_ge v.size
      omega
    have hcap : (v.push_back x).cap = capAfter ((v.push_back x).size) := by
      rw [vector.push_back_cap, vector.push_back_size, capAfter]
      by_cases hfull : v.size = v.cap
      · have hc : capAfter v.size = v.size := by omega
        rw [if_pos hc, if_pos hfull, hc]
        split <;> omega
      · have hc : ¬ capAfter v.size = v.size := by omega
        rw [if_neg hc, if_neg hfull]
        omega
    have := ih (v.push_back x) hcap
    rw [vector.push_back_size] at this
    rw [vector.pushList]
    refine ⟨?_, ?_⟩
    · rw [this.1, vector.push_back_data]
      simp
    · rw [this.2]
      congr 1
      simp only [List.length_cons]
      omega

/-- C1: starting from a default-constructed container, a sequence of `k`
`push_back` calls yields length `k`, the pushed elements in call order,
and a capacity that follows the doubling rule (an append finding length
equal to capacity raises capacity to `max 1 (2 * capacity)`, so the
capacities visited from 0 are 0, 1, 2, 4, 8, ...); the capacity is always
at least `k` and is always 0 or a power of two. -/
theorem C1_push_back_doubling (xs : List T) :
    ((vector.mkDefault : vector T).pushList xs).data = xs ∧
    ((vector.mkDefault : vector T).pushList xs).size = xs.length ∧
    ((vector.mkDefault : vector T).pushList xs).cap = capAfter xs.length ∧
    xs.length ≤ ((vector.mkDefault : vector T).pushList xs).cap ∧
    (((vector.mkDefault : vector T).pushList xs).cap = 0 ∨
      ∃ j, ((vector.mkDefault : vector T).pushList xs).cap = 2 ^ j) := by
  have h0 : (vector.mkDefault : vector T).cap = capAfter (vector.mkDefault : vector T).size := by
    simp [vector.mkDefault, vector.size, capAfter]
  have h := vector.pushList_spec xs vector.mkDefault h0
  have hd : ((vector.mkDefault : vector T).pushList xs).data = xs := by
    simpa [vector.mkDefault] using h.1
  have hc : ((vector.mkDefault : vector T).pushList xs).cap = capAfter xs.length := by
    simpa [vector.mkDefault, vector.size] using h.2
  refine ⟨hd, ?_, hc, ?_, ?_⟩
  · simp [vector.size, hd]
  · rw [hc]; exact capAfter_ge xs.length
  · rw [hc]; exact capAfter_pow xs.length

theorem zip_self_all (eq : T → T → Bool) (h : ∀ a, eq a a = true) (l : List T) :
    ((l.zip l).all fun p => eq p.1 p.2) = true := by
  induction l with
  | nil => rfl
  | cons x xs ih => simp [h, ih]

/-- C2: copy construction allocates a buffer of the source's capacity
(not merely its size), copies the live elements in order, preserves the
length, and the copy compares equal (`operator==`) to the source whenever
the element equality is reflexive. -/
theorem C2_copy_ctor (eq : T → T → Bool) (v : vector T)
    (h : ∀ a, eq a a = true) :
    v.copyCtor.cap = v.cap ∧
    v.copyCtor.data = v.data ∧
    v.copyCtor.size = v.size ∧
    vector.vecEq eq v.copyCtor v = true := by
  refine ⟨rfl, rfl, rfl, ?_⟩
  simp only [vector.vecEq, vector.copyCtor, vector.size]
  rw [if_neg (by simp)]
  exact zip_self_all eq h v.data

theorem C2_copy_ctor_witness :
    (vector.copyCtor (⟨[1, 2, 3], 5, true⟩ : vector Nat)).cap = 5 ∧
    vector.vecEq Nat.beq (vector.copyCtor (⟨[1, 2, 3], 5, true⟩ : vector Nat))
      ⟨[1, 2, 3], 5, true⟩ = true :=
  ⟨(C2_copy_ctor Nat.beq ⟨[1, 2, 3], 5, true⟩ (fun a => Nat.beq_refl a)).1,
   (C2_copy_ctor Nat.beq ⟨[1, 2, 3], 5, true⟩ (fun a => Nat.beq_refl a)).2.2.2⟩

/-- C3: the checked accessor hits the fatal path (modelled as `none`)
exactly when the index is not below the length; otherwise it returns the
element at that index, the container itself being untouched (the accessor
is read-only on the state). -/
theorem C3_at_checked (v : vector T) (index : Nat) :
    (v.atIdx index = none ↔ v.size ≤ index) ∧
    (∀ h : index < v.size, v.atIdx index = some (v.data.get ⟨index, h⟩)) := by
  constructor
  · unfold vector.atIdx
    by_cases h : v.size ≤ index
    · simp [h]
    · have hlt : index < v.data.length := by
        simpa [vector.size] using Nat.lt_of_not_le h
      simp [h, List.getElem?_eq_getElem hlt]
  · intro h
    unfold vector.atIdx
    rw [if_neg (by omega)]
    simp [List.getElem?_eq_getElem (by simpa [vector.size] using h)]

theorem C3_at_checked_witness :
    vector.atIdx (⟨[10, 20, 30], 3, true⟩ : vector Nat) 5 = none ∧
    vector.atIdx (⟨[10, 20, 30], 3, true⟩ : vector Nat) 1 = some 20 :=
  ⟨(C3_at_checked ⟨[10, 20, 30], 3, true⟩ 5).1.mpr (by decide),
   (C3_at_checked ⟨[10, 20, 30], 3, true⟩ 1).2 (by decide)⟩

/-- C4 counterexample: constructing with count 0 runs `new T[0]`, so the
resulting state has capacity 0 yet holds an allocation; likewise
`shrink_to_fit` on a cleared (hence empty) container with positive
capacity reallocates to a zero-length buffer that is still held.  This
refutes the claim that capacity 0 implies an absent buffer in every
reachable state. -/
theorem C4_capacity_zero_counterexample :
    ((vector.mkCount 0 (0 : Nat)).cap = 0 ∧
      (vector.mkCount 0 (0 : Nat)).alloc = true) ∧
    (((vector.mkCount 2 (0 : Nat)).clear.shrink_to_fit).cap = 0 ∧
      ((vector.mkCount 2 (0 : Nat)).clear.shrink_to_fit).alloc = true) := by
  refine ⟨⟨rfl, rfl⟩, ?_, ?_⟩ <;> rfl

/-- C4 amended: an absent buffer only arises in the default-constructed
and moved-from states, which indeed have capacity 0 (and length 0); the
converse fails, since construction with count 0 (and `shrink_to_fit` or
`reallocate` down to 0 slots) leaves a zero-capacity allocation held. -/
theorem C4_buffer_absent_amended (v : vector T) :
    ((vector.mkDefault : vector T).alloc = false ∧
      (vector.mkDefault : vector T).cap = 0 ∧
      (vector.mkDefault : vector T).size = 0) ∧
    (v.moveCtor.2.alloc = false ∧ v.moveCtor.2.cap = 0 ∧ v.moveCtor.2.size = 0) ∧
    (∀ x : T, (vector.mkCount 0 x).cap = 0 ∧ (vector.mkCount 0 x).alloc = true) := by
  exact ⟨⟨rfl, rfl, rfl⟩, ⟨rfl, rfl, rfl⟩, fun x => ⟨rfl, rfl⟩⟩

/-- C5: `pop_back` hits the fatal path (modelled as `none`) exactly on the
empty container; on a non-empty container it drops the last element only:
the length decreases by one, the remaining elements are the first
`length - 1` old elements unchanged, and capacity (and the buffer) are
untouched. -/
theorem C5_pop_back (v : vector T) :
    (v.data = [] → v.pop_back = none) ∧
    (v.data ≠ [] →
      v.pop_back = some ⟨v.data.dropLast, v.cap, v.alloc⟩ ∧
      v.data.dropLast.length = v.data.length - 1 ∧
      v.data.dropLast = v.data.take (v.data.length - 1)) := by
  constructor
  · intro h
    simp [vector.pop_back, vector.empty, vector.size, h]
  · intro h
    refine ⟨?_, List.length_dropLast v.data, List.dropLast_eq_take v.data⟩
    simp [vector.pop_back, vector.empty, vector.size, h]

theorem C5_pop_back_witness :
    vector.pop_back (⟨[1, 2], 4, true⟩ : vector Nat) = some ⟨[1], 4, true⟩ ∧
    vector.pop_back (⟨[], 0, false⟩ : vector Nat) = none :=
  ⟨((C5_pop_back ⟨[1, 2], 4, true⟩).2 (by decide)).1,
   (C5_pop_back ⟨[], 0, false⟩).1 rfl⟩

/-- C6: `reserve` with a target above the current capacity reallocates to
exactly that capacity, keeping the elements (and hence the length) as they
were; with a target at or below the current capacity it changes nothing. -/
theorem C6_reserve (v : vector T) (new_cap : Nat) :
    (v.capacity < new_cap → v.reserve new_cap = ⟨v.data, new_cap, true⟩) ∧
    (new_cap ≤ v.capacity → v.reserve new_cap = v) := by
  constructor
  · intro h
    simp [vector.reserve, vector.reallocate, h]
  · intro h
    simp [vector.reserve, Nat.not_lt_of_le h]

theorem C6_reserve_witness :
    vector.reserve (⟨[7], 1, true⟩ : vector Nat) 10 = ⟨[7], 10, true⟩ ∧
    vector.reserve (⟨[7], 1, true⟩ : vector Nat) 1 = ⟨[7], 1, true⟩ :=
  ⟨(C6_reserve ⟨[7], 1, true⟩ 10).1 (by decide),
   (C6_reserve ⟨[7], 1, true⟩ 1).2 (by decide)⟩

/-- C7: move construction hands the destination exactly the source's prior
state (the same buffer, length and capacity, with no per-element work) and
leaves the source as the default empty state with length 0 and capacity 0
and no buffer. -/
theorem C7_move_ctor (v : vector T) :
    v.moveCtor.1 = v ∧
    v.moveCtor.2 = vector.mkDefault ∧
    v.moveCtor.2.size = 0 ∧ v.moveCtor.2.cap = 0 := by
  exact ⟨rfl, rfl, rfl, rfl⟩

theorem lexicographical_compare_iff (lt : T → T → Bool) :
    ∀ as bs : List T,
      vector.lexicographical_compare lt as bs = true ↔
        SpecLex (fun x y => lt x y = true) as bs := by
  intro as
  induction as with
  | nil =>
    intro bs
    cases bs with
    | nil =>
      simp only [vector.lexicographical_compare]
      constructor
      · intro h
        exact (Bool.false_ne_true h).elim
      · intro h
        nomatch h
    | cons b bs =>
      simp only [vector.lexicographical_compare]
      exact ⟨fun _ => SpecLex.nil b bs, fun _ => trivial⟩
  | cons a as ih =>
    intro bs
    cases bs with
    | nil =>
      simp only [vector.lexicographical_compare]
      constructor
      · intro h
        exact (Bool.false_ne_true h).elim
      · intro h
        nomatch h
    | cons b bs =>
      simp only [vector.lexicographical_compare]
      by_cases h1 : lt a b = true
      · rw [if_pos h1]
        exact ⟨fun _ => SpecLex.head h1, fun _ => rfl⟩
      · rw [if_neg h1]
        by_cases h2 : lt b a = true
        · rw [if_pos h2]
          constructor
          · intro h
            exact (Bool.false_ne_true h).elim
          · intro h
            cases h with
            | head h3 => exact (h1 h3).elim
            | tail hab hba htail => exact (hba h2).elim
        · rw [if_neg h2, ih bs]
          constructor
          · intro h
            exact SpecLex.tail h1 h2 h
          · intro h
            cases h with
            | head h3 => exact (h1 h3).elim
            | tail hab hba htail => exact htail

theorem lexicographical_compare_append (lt : T → T → Bool) (x : T) (rest : List T) :
    ∀ as : List T,
      vector.lexicographical_compare lt as (as ++ x :: rest) = true := by
  intro as
  induction as with
  | nil => rfl
  | cons a as ih =>
    rw [List.cons_append]
    simp only [vector.lexicographical_compare]
    by_cases h : lt a a = true
    · rw [if_pos h]
    · rw [if_neg h, if_neg h]
      exact ih

theorem zipAll_get_iff (eq : T → T → Bool) :
    ∀ as bs : List T, as.length = bs.length →
      (((as.zip bs).all fun p => eq p.1 p.2) = true ↔
        ∀ (i : Nat) (hi : i < as.length) (hj : i < bs.length),
          eq (as.get ⟨i, hi⟩) (bs.get ⟨i, hj⟩) = true) := by
  intro as
  induction as with
  | nil =>
    intro bs h
    exact iff_of_true rfl (fun i hi => absurd hi (Nat.not_lt_zero i))
  | cons a as ih =>
    intro bs h
    cases bs with
    | nil => simp at h
    | cons b bs =>
      simp only [List.zip_cons_cons, List.all_cons, Bool.and_eq_true]
      rw [ih bs (by simpa using h)]
      constructor
      · rintro ⟨h0, hrest⟩ i hi hj
        cases i with
        | zero => exact h0
        | succ i =>
          simpa using hrest i (by simpa using hi) (by simpa using hj)
      · intro hall
        refine ⟨hall 0 (by simp) (by simp), fun i hi hj => ?_⟩
        simpa using hall (i + 1) (by simpa using hi) (by simpa using hj)

/-- C8: `operator<` agrees with the lexicographic strict order on the
element sequences (written from the spec as `SpecLex`); in particular a
container whose elements form a proper prefix of another container's
elements is strictly less; and `operator==` holds exactly when the two
containers have the same length and are element-wise equal under the
element type's equality. -/
theorem C8_ordering_and_equality (lt eq : T → T → Bool) (a b : vector T) :
    (vector.vecLt lt a b = true ↔ SpecLex (fun x y => lt x y = true) a.data b.data) ∧
    (∀ (x : T) (rest : List T),
      b.data = a.data ++ x :: rest → vector.vecLt lt a b = true) ∧
    (vector.vecEq eq a b = true ↔
      (a.data.length = b.data.length ∧
        ∀ (i : Nat) (hi : i < a.data.length) (hj : i < b.data.length),
          eq (a.data.get ⟨i, hi⟩) (b.data.get ⟨i, hj⟩) = true)) := by
  refine ⟨lexicographical_compare_iff lt a.data b.data, ?_, ?_⟩
  · intro x rest hpre
    unfold vector.vecLt
    rw [hpre]
    exact lexicographical_compare_append lt x rest a.data
  · unfold vector.vecEq vector.size
    by_cases hlen : a.data.length = b.data.length
    · rw [if_neg (not_not_intro hlen)]
      rw [zipAll_get_iff eq a.data b.data hlen]
      exact ⟨fun h => ⟨hlen, h⟩, fun h => h.2⟩
    · rw [if_pos hlen]
      constructor
      · intro h
        exact (Bool.false_ne_true h).elim
      · intro h
        exact (hlen h.1).elim

theorem C8_ordering_and_equality_witness :
    vector.vecLt Nat.blt (⟨[1, 2], 2, true⟩ : vector Nat)
      ⟨[1, 2, 3], 3, true⟩ = true :=
  (C8_ordering_and_equality Nat.blt Nat.beq ⟨[1, 2], 2, true⟩
    ⟨[1, 2, 3], 3, true⟩).2.1 3 [] rfl

/-- C9: the derived comparison operators are coherent with `operator==`
and `operator<`: `!=` is the negation of `==`, `<=` is the negation of the
flipped `<`, `>` is the flipped `<`, and `>=` is the negation of `<`. -/
theorem C9_derived_comparisons (eq lt : T → T → Bool) (a b : vector T) :
    vector.vecNe eq a b = !(vector.vecEq eq a b) ∧
    vector.vecLe lt a b = !(vector.vecLt lt b a) ∧
    vector.vecGt lt a b = vector.vecLt lt b a ∧
    vector.vecGe lt a b = !(vector.vecLt lt a b) :=
  ⟨rfl, rfl, rfl, rfl⟩

/-- C10: `resize` called with the current length changes nothing: neither
the shrinking branch nor the growing branch is taken, so length, capacity
and all elements stay exactly as they were. -/
theorem C10_resize_to_same_length (v : vector T) (x : T) :
    v.resize v.size x = v := by
  simp [vector.resize]

end nexus
